import Mathlib

/-!
Shallow embedding of the student-record CSV service (`src/node.js`).

JavaScript strings are modelled as `List Char` (`Str`); JS string
operations used by the source (`split` on a one-character separator,
`join`, `trim`, `toLowerCase`, `includes`) are modelled by executable
functions below with JS semantics on the characters the program uses.
JS objects built by the parser are modelled as ordered association
lists (`Record`), with property assignment (`objInsert`) keeping the
first-insertion position of an existing key and appending a fresh key,
and property access (`objGet`) returning `none` for a missing key
(JS `undefined`).

A thrown `TypeError` inside the `fs.readFile` callback (e.g.
`values[index].trim()` when `values[index]` is `undefined`) is not a
promise rejection: it escapes the callback and crashes the process.
The model keeps that distinct from an I/O error (`GetResult.crash`
versus `GetResult.ioError`).
-/

abbrev Str := List Char

/-- JS whitespace test for the characters relevant here (space, tab,
newline, carriage return, vertical tab, form feed, NBSP); `String.prototype.trim`
strips exactly the characters satisfying this on both ends. -/
def jsIsWS (c : Char) : Bool :=
  c = ' ' || c = '\t' || c = '\n' || c = '\r' || c = '\x0b' || c = '\x0c' || c = ' '

/-- Model of JS `s.split(sep)` for a one-character separator `sep`:
always returns a nonempty list, `"".split(sep) = [""]`. -/
def jsSplit (c : Char) : Str → List Str
  | [] => [[]]
  | x :: xs =>
    if x = c then [] :: jsSplit c xs
    else
      match jsSplit c xs with
      | [] => [[x]]
      | y :: ys => (x :: y) :: ys

/-- Model of JS `parts.join(sep)` for a one-character separator. -/
def jsJoin (c : Char) : List Str → Str
  | [] => []
  | [p] => p
  | p :: q :: qs => p ++ c :: jsJoin c (q :: qs)

/-- Model of JS `s.trim()`: drop leading and trailing whitespace. -/
def jsTrim (s : Str) : Str :=
  ((s.dropWhile jsIsWS).reverse.dropWhile jsIsWS).reverse

/-- Model of JS `s.toLowerCase()` (ASCII range, which is all the code relies on). -/
def jsToLower (s : Str) : Str := s.map Char.toLower

/-- A JS object as an ordered association list of own properties. -/
abbrev Record := List (Str × Str)

/-- JS property assignment `obj[k] = v`: overwrite in place if the key
exists, otherwise append the new property at the end. -/
def objInsert (r : Record) (k v : Str) : Record :=
  if k ∈ r.map Prod.fst then r.map (fun p => if p.1 = k then (k, v) else p)
  else r ++ [(k, v)]

/-- JS property access `obj[k]`: `none` models `undefined`. -/
def objGet (r : Record) (k : Str) : Option Str :=
  (r.find? (fun p => p.1 = k)).map Prod.snd

/-- The key `"name"` used by the search handler (`s.name`). -/
def nameKey : Str := ['n', 'a', 'm', 'e']

/-- Builds one student object from `headers.forEach((header, index) => ...)`
(node.js lines 41-43): at each header index, `values[index].trim()` is a
`TypeError` (modelled `.error ()`) when `values[index]` is `undefined`. -/
def buildRecGo (values : List Str) (acc : Record) (i : Nat) : List Str → Except Unit Record
  | [] => .ok acc
  | h :: hs =>
    match values[i]? with
    | none => .error ()
    | some v => buildRecGo values (objInsert acc (jsTrim h) (jsTrim v)) (i + 1) hs

/-- One row of `rows.map` in `getStudents` (node.js lines 38-45). -/
def buildRecord (headers values : List Str) : Except Unit Record :=
  buildRecGo values [] 0 headers

/-- The `rows.map(row => ...)` loop: `row.split(',')` then the header
zip; a thrown `TypeError` in any row aborts the whole map. -/
def parseRows (headers : List Str) : List Str → Except Unit (List Record)
  | [] => .ok []
  | row :: rest =>
    match buildRecord headers (jsSplit ',' row) with
    | .error e => .error e
    | .ok rec =>
      match parseRows headers rest with
      | .error e => .error e
      | .ok recs => .ok (rec :: recs)

/-- CSV parsing of `getStudents` (node.js lines 32-46): empty data is an
empty table; otherwise `data.trim().split('\n')`, first line shifted off
as the header (split on commas), remaining rows mapped to objects. -/
def parseStudents (data : Str) : Except Unit (List Record) :=
  if data = [] then .ok []
  else
    match jsSplit '\n' (jsTrim data) with
    | [] => .ok []
    | headerLine :: dataRows => parseRows (jsSplit ',' headerLine) dataRows

/-- Fixed header written for an empty table (node.js line 59). -/
def defaultHeader : Str :=
  ['n', 'a', 'm', 'e', ',', 'r', 'o', 'l', 'l', ',', 'm', 'a', 'r', 'k', 's']

/-- CSV serialization of `saveStudents` (node.js lines 56-73): empty table
gives the fixed header only; otherwise the header is the comma-joined keys
of the first record and each row the comma-joined values of its record. -/
def serializeStudents : List Record → Str
  | [] => defaultHeader
  | s :: rest =>
    jsJoin ',' (s.map Prod.fst) ++
      '\n' :: jsJoin '\n' ((s :: rest).map (fun st => jsJoin ',' (st.map Prod.snd)))

/-- Outcome of the `fs.readFile` callback's argument inspection. -/
inductive FsResult
  | enoent
  | ioError (e : Str)
  | ok (data : Str)
deriving DecidableEq

/-- Result of `getStudents`: a resolved table, a rejected promise
carrying the I/O error, or an uncaught exception that crashes the
process (a `TypeError` thrown inside the `readFile` callback settles
no promise and reaches the event loop). -/
inductive GetResult
  | ok (t : List Record)
  | ioError (e : Str)
  | crash
deriving DecidableEq

/-- `getStudents` (node.js lines 22-49) as a function of the read outcome:
`ENOENT` resolves `[]`, any other read error rejects, empty data resolves
`[]`, and a parse `TypeError` crashes. -/
def getStudents : FsResult → GetResult
  | .enoent => .ok []
  | .ioError e => .ioError e
  | .ok data =>
    match parseStudents data with
    | .ok t => .ok t
    | .error _ => .crash

deriving instance DecidableEq for Except

/-- The backing file: `none` when `students.csv` does not exist. -/
abbrev FileState := Option Str

/-- What `fs.readFile` hands the callback for a given file state. -/
def readFs : FileState → FsResult
  | none => .enoent
  | some d => .ok d

/-- `fs.writeFile` / full overwrite of the backing file. -/
def writeFile (_ : FileState) (content : Str) : FileState := some content

/-- Content handed to `fs.writeFile` by `saveStudents`, as a file
overwrite (node.js lines 56-73). -/
def saveWrite (students : List Record) (fs : FileState) : FileState :=
  writeFile fs (serializeStudents students)

/-- Outcome of the `/add` handler body (node.js lines 120-133). -/
inductive AddOutcome
  | success (written : Str) (echoed : Record)
  | error500 (e : Str)
  | crash
deriving DecidableEq

/-- The `/add` handler: parse the body into one object, load the table,
push the new student, save, answer 201 echoing the student; a rejected
load answers 500; a parse `TypeError` crashes (the promise never settles). -/
def addFlow (fsr : FsResult) (newStudent : Record) : AddOutcome :=
  match getStudents fsr with
  | .ok students => .success (serializeStudents (students ++ [newStudent])) newStudent
  | .ioError e => .error500 e
  | .crash => .crash

/-- Helper for `jsIncludes`: does `hay` start with `needle`? -/
def strStartsWith : Str → Str → Bool
  | _, [] => true
  | [], _ :: _ => false
  | x :: xs, y :: ys => x = y && strStartsWith xs ys

/-- Model of JS `hay.includes(needle)`: `needle` occurs contiguously in `hay`. -/
def jsIncludes : Str → Str → Bool
  | [], needle => strStartsWith [] needle
  | x :: xs, needle => strStartsWith (x :: xs) needle || jsIncludes xs needle

/-- The predicate of `students.filter` in `/search` (node.js line 143):
`s.name.toLowerCase().includes(name.toLowerCase())`; `none` for `s.name`
means the call throws. -/
def nameMatches (r : Record) (q : Str) : Option Bool :=
  match objGet r nameKey with
  | none => none
  | some n => some (jsIncludes (jsToLower n) (jsToLower q))

/-- JS `Array.prototype.filter` with the search predicate: evaluates the
predicate on every element in order; a throw (name property missing,
so `undefined.toLowerCase()`) aborts the whole filter. -/
def filterByName : List Record → Str → Except Unit (List Record)
  | [], _ => .ok []
  | s :: rest, q =>
    match nameMatches s q with
    | none => .error ()
    | some b =>
      match filterByName rest q with
      | .error e => .error e
      | .ok results => .ok (if b then s :: results else results)

/-- Outcome of the `/search` handler (node.js lines 134-149). -/
inductive SearchOutcome
  | badRequest
  | ok200 (results : List Record)
  | error500
  | crash
deriving DecidableEq

/-- The `/search` handler: `if (!name)` answers 400 before any file
access (both an absent and an empty `name` parameter are falsy); then
load and filter, catching thrown errors as 500. -/
def searchFlow (nameParam : Option Str) (fsr : FsResult) : SearchOutcome :=
  match nameParam with
  | none => .badRequest
  | some q =>
    if q = [] then .badRequest
    else
      match getStudents fsr with
      | .ok students =>
        match filterByName students q with
        | .ok results => .ok200 results
        | .error _ => .error500
      | .ioError _ => .error500
      | .crash => .crash

/-- Outcome of `/export` (node.js lines 150-155): the raw file bytes, or
a crash — `fs.createReadStream(...).pipe(res)` installs no error handler,
so a missing file raises an unhandled stream error event. -/
inductive ExportResult
  | bytes (b : Str)
  | crash
deriving DecidableEq

/-- `export_raw`: the file's bytes verbatim, bypassing the codec. -/
def exportRaw : FileState → ExportResult
  | some b => .bytes b
  | none => .crash

/-- `import_raw` (`/upload`, node.js lines 156-170): overwrite the
backing file byte-for-byte with the request body, no validation. -/
def importRaw (body : Str) (fs : FileState) : FileState := writeFile fs body

/-- An HTTP request reaching the router, with the data each route uses
(GET `/` serves static HTML and is out of scope). -/
inductive Req
  | list
  | add (body : Record)
  | search (nameParam : Option Str)
  | exportCsv
  | upload (bytes : Str)
  | options
  | other
deriving DecidableEq

/-- What handling one request does to the process: an HTTP response
with some status code, or a process crash. -/
inductive Outcome
  | respond (code : Nat)
  | crash
deriving DecidableEq

/-- The router (node.js lines 76-176) at response-status granularity. -/
def handleReq (req : Req) (fs : FileState) : Outcome :=
  match req with
  | .options => .respond 204
  | .list =>
    match getStudents (readFs fs) with
    | .ok _ => .respond 200
    | .ioError _ => .respond 500
    | .crash => .crash
  | .add body =>
    match addFlow (readFs fs) body with
    | .success _ _ => .respond 201
    | .error500 _ => .respond 500
    | .crash => .crash
  | .search nameParam =>
    match searchFlow nameParam (readFs fs) with
    | .badRequest => .respond 400
    | .ok200 _ => .respond 200
    | .error500 => .respond 500
    | .crash => .crash
  | .exportCsv =>
    match exportRaw fs with
    | .bytes _ => .respond 200
    | .crash => .crash
  | .upload _ => .respond 200
  | .other => .respond 404

/-- Reference builder for one row: walk the headers and remaining values
together; `buildRecGo` reduces to this (see `buildRecGo_eq_zipBuild`). -/
def zipBuild : Record → List Str → List Str → Except Unit Record
  | acc, [], _ => .ok acc
  | _, _ :: _, [] => .error ()
  | acc, h :: hs, v :: vs => zipBuild (objInsert acc (jsTrim h) (jsTrim v)) hs vs

/-- A field (key or value) that survives the codec unchanged: nonempty,
no surrounding whitespace, and free of the two separator characters. -/
def cleanStr (s : Str) : Prop :=
  s ≠ [] ∧ jsTrim s = s ∧ ',' ∉ s ∧ '\n' ∉ s

instance (s : Str) : Decidable (cleanStr s) := by
  unfold cleanStr; exact inferInstance

/-- A table whose records all list the same nonempty, duplicate-free
column sequence `ks`, with every key and value a `cleanStr`. -/
def cleanTable (ks : List Str) (t : List Record) : Prop :=
  ks ≠ [] ∧ ks.Nodup ∧ (∀ k ∈ ks, cleanStr k) ∧
    ∀ r ∈ t, r.map Prod.fst = ks ∧ ∀ v ∈ r.map Prod.snd, cleanStr v

instance (ks : List Str) (t : List Record) : Decidable (cleanTable ks t) := by
  unfold cleanTable cleanStr; exact inferInstance

/-- The serialized line of one record: its values comma-joined. -/
def rowStr (st : Record) : Str := jsJoin ',' (st.map Prod.snd)

theorem jsSplit_ne_nil (c : Char) (s : Str) : jsSplit c s ≠ [] := by
  cases s with
  | nil => simp [jsSplit]
  | cons x xs =>
    simp only [jsSplit]
    split
    · simp
    · split <;> simp

theorem jsSplit_no_sep {c : Char} : ∀ {p : Str}, c ∉ p → jsSplit c p = [p]
  | [], _ => rfl
  | x :: xs, h => by
    have hx : ¬x = c := fun hxc => h (hxc ▸ List.mem_cons_self x xs)
    have hxs : c ∉ xs := fun hc => h (List.mem_cons_of_mem _ hc)
    simp [jsSplit, hx, jsSplit_no_sep hxs]

theorem jsSplit_append {c : Char} : ∀ {p : Str}, c ∉ p → ∀ (s : Str),
    jsSplit c (p ++ c :: s) = p :: jsSplit c s
  | [], _, s => by simp [jsSplit]
  | x :: xs, h, s => by
    have hx : ¬x = c := fun hxc => h (hxc ▸ List.mem_cons_self x xs)
    have hxs : c ∉ xs := fun hc => h (List.mem_cons_of_mem _ hc)
    simp [jsSplit, hx, jsSplit_append hxs s]

theorem jsSplit_jsJoin (c : Char) : ∀ (parts : List Str), parts ≠ [] →
    (∀ p ∈ parts, c ∉ p) → jsSplit c (jsJoin c parts) = parts
  | [], hne, _ => absurd rfl hne
  | [p], _, hp => by
    simpa [jsJoin] using jsSplit_no_sep (hp p (by simp))
  | p :: q :: qs, _, hp => by
    simp only [jsJoin]
    rw [jsSplit_append (hp p (by simp)) _,
      jsSplit_jsJoin c (q :: qs) (by simp) (fun r hr => hp r (List.mem_cons_of_mem _ hr))]

theorem mem_jsJoin (c x : Char) : ∀ (parts : List Str), x ∈ jsJoin c parts →
    x = c ∨ ∃ p ∈ parts, x ∈ p
  | [], h => by simp [jsJoin] at h
  | [p], h => Or.inr ⟨p, by simp, by simpa [jsJoin] using h⟩
  | p :: q :: qs, h => by
    simp only [jsJoin, List.mem_append, List.mem_cons] at h
    rcases h with hp | hc | hrest
    · exact Or.inr ⟨p, by simp, hp⟩
    · exact Or.inl hc
    · rcases mem_jsJoin c x (q :: qs) hrest with hc | ⟨r, hr, hxr⟩
      · exact Or.inl hc
      · exact Or.inr ⟨r, List.mem_cons_of_mem _ hr, hxr⟩

theorem jsJoin_head? (c : Char) (p : Str) (ps : List Str) (hp : p ≠ []) :
    (jsJoin c (p :: ps)).head? = p.head? := by
  cases ps with
  | nil => rfl
  | cons q qs =>
    simp only [jsJoin]
    exact List.head?_append_of_ne_nil p hp

theorem jsJoin_getLast? (c : Char) : ∀ (parts : List Str) (p : Str),
    parts.getLast? = some p → p ≠ [] → (jsJoin c parts).getLast? = p.getLast?
  | [], p, hp, _ => by simp at hp
  | [q], p, hp, hne => by
    obtain rfl : q = p := by simpa using hp
    rfl
  | q :: r :: rs, p, hp, hne => by
    rw [List.getLast?_cons_cons] at hp
    have hrec := jsJoin_getLast? c (r :: rs) p hp hne
    have hjne : jsJoin c (r :: rs) ≠ [] := by
      intro hnil
      rw [hnil] at hrec
      have : p.getLast? = none := hrec.symm
      exact hne (List.getLast?_eq_none_iff.mp this)
    simp only [jsJoin]
    rw [List.getLast?_append_of_ne_nil _ (by simp)]
    calc (c :: jsJoin c (r :: rs)).getLast?
        = ([c] ++ jsJoin c (r :: rs)).getLast? := rfl
      _ = (jsJoin c (r :: rs)).getLast? := List.getLast?_append_of_ne_nil _ hjne
      _ = p.getLast? := hrec

theorem length_dropWhile_le (p : α → Bool) (l : List α) :
    (l.dropWhile p).length ≤ l.length :=
  (List.dropWhile_suffix p).sublist.length_le

theorem jsTrim_length_le (s : Str) :
    (jsTrim s).length ≤ (s.dropWhile jsIsWS).length := by
  simp only [jsTrim, List.length_reverse]
  calc ((s.dropWhile jsIsWS).reverse.dropWhile jsIsWS).length
      ≤ (s.dropWhile jsIsWS).reverse.length := length_dropWhile_le _ _
    _ = (s.dropWhile jsIsWS).length := List.length_reverse _

theorem head_not_ws_of_jsTrim_eq {s : Str} (h : jsTrim s = s) :
    ∀ c, s.head? = some c → jsIsWS c = false := by
  intro c hc
  cases s with
  | nil => simp at hc
  | cons a rest =>
    have hac : a = c := by simpa using hc
    subst hac
    cases hb : jsIsWS a with
    | false => rfl
    | true =>
      exfalso
      have h1 := jsTrim_length_le (a :: rest)
      rw [List.dropWhile_cons_of_pos hb] at h1
      have h2 : (List.dropWhile jsIsWS rest).length ≤ rest.length := length_dropWhile_le _ _
      have h3 := congrArg List.length h
      simp only [List.length_cons] at h3
      omega

theorem last_not_ws_of_jsTrim_eq {s : Str} (h : jsTrim s = s) :
    ∀ c, s.getLast? = some c → jsIsWS c = false := by
  intro c hc
  cases hb : jsIsWS c with
  | false => rfl
  | true =>
    exfalso
    have hne : s ≠ [] := by rintro rfl; simp at hc
    cases hd : s.dropWhile jsIsWS with
    | nil =>
      have hz : (jsTrim s).length = 0 := by simp [jsTrim, hd]
      rw [h] at hz
      exact hne (List.length_eq_zero.mp hz)
    | cons a u =>
      obtain ⟨pre, hpre⟩ := List.dropWhile_suffix (l := s) jsIsWS
      have hlast : (s.dropWhile jsIsWS).getLast? = some c := by
        rw [← hpre] at hc
        rwa [List.getLast?_append_of_ne_nil pre (by simp [hd])] at hc
      have hrev : (s.dropWhile jsIsWS).reverse.head? = some c := by
        rw [List.head?_reverse]; exact hlast
      cases hr : (s.dropWhile jsIsWS).reverse with
      | nil => rw [hr] at hrev; simp at hrev
      | cons b w =>
        have hbc : b = c := by rw [hr] at hrev; simpa using hrev
        have h1 : (jsTrim s).length ≤ w.length := by
          simp only [jsTrim, List.length_reverse, hr]
          rw [hbc, List.dropWhile_cons_of_pos hb]
          exact length_dropWhile_le _ _
        have h2 : (s.dropWhile jsIsWS).length = w.length + 1 := by
          have hlen := congrArg List.length hr
          simpa using hlen
        have h3 : (s.dropWhile jsIsWS).length ≤ s.length := length_dropWhile_le _ _
        have h4 := congrArg List.length h
        omega

theorem jsTrim_eq_of_clean_ends {s : Str} (hne : s ≠ [])
    (hhead : ∀ c, s.head? = some c → jsIsWS c = false)
    (hlast : ∀ c, s.getLast? = some c → jsIsWS c = false) : jsTrim s = s := by
  have h1 : s.dropWhile jsIsWS = s := by
    cases s with
    | nil => rfl
    | cons a t => exact List.dropWhile_cons_of_neg (by simp [hhead a rfl])
  have h2 : s.reverse.dropWhile jsIsWS = s.reverse := by
    cases hr : s.reverse with
    | nil => simp
    | cons a t =>
      have ha : s.getLast? = some a := by rw [← List.head?_reverse, hr]; rfl
      exact List.dropWhile_cons_of_neg (by simp [hlast a ha])
  simp only [jsTrim, h1, h2, List.reverse_reverse]

theorem objInsert_fresh {r : Record} {k : Str} (h : k ∉ r.map Prod.fst) (v : Str) :
    objInsert r k v = r ++ [(k, v)] := by
  simp [objInsert, h]

theorem buildRecGo_eq_zipBuild (values : List Str) :
    ∀ (hs : List Str) (acc : Record) (i : Nat),
      buildRecGo values acc i hs = zipBuild acc hs (values.drop i)
  | [], acc, i => by simp [buildRecGo, zipBuild]
  | h :: hs, acc, i => by
    simp only [buildRecGo]
    rw [← List.head?_drop]
    cases hd : values.drop i with
    | nil => simp [zipBuild]
    | cons v vs =>
      simp only [List.head?_cons]
      rw [buildRecGo_eq_zipBuild values hs _ (i + 1)]
      have hdrop : values.drop (i + 1) = vs := by rw [← List.tail_drop, hd]; rfl
      rw [hdrop]
      rfl

theorem zipBuild_ok : ∀ (hs vs : List Str) (acc : Record),
    hs.length ≤ vs.length →
    (∀ h ∈ hs, jsTrim h = h) → (∀ v ∈ vs, jsTrim v = v) →
    hs.Nodup → (∀ h ∈ hs, h ∉ acc.map Prod.fst) →
    zipBuild acc hs vs = .ok (acc ++ hs.zip vs)
  | [], vs, acc, _, _, _, _, _ => by simp [zipBuild]
  | h :: hs, [], acc, hlen, _, _, _, _ => by simp at hlen
  | h :: hs, v :: vs, acc, hlen, htr, vtr, hnd, hfr => by
    simp only [zipBuild]
    rw [htr h (by simp), vtr v (by simp), objInsert_fresh (hfr h (by simp)) v]
    have hfr' : ∀ h' ∈ hs, h' ∉ (acc ++ [(h, v)]).map Prod.fst := by
      intro h' hh' hmem
      simp only [List.map_append, List.mem_append, List.map_cons, List.map_nil,
        List.mem_singleton] at hmem
      rcases hmem with h1 | h2
      · exact hfr h' (List.mem_cons_of_mem _ hh') h1
      · exact (List.nodup_cons.mp hnd).1 (h2 ▸ hh')
    rw [zipBuild_ok hs vs (acc ++ [(h, v)]) (by simpa using hlen)
      (fun h' hh' => htr h' (List.mem_cons_of_mem _ hh'))
      (fun v' hv' => vtr v' (List.mem_cons_of_mem _ hv'))
      (List.Nodup.of_cons hnd) hfr']
    simp

theorem buildRecord_ok {hs vs : List Str} (hlen : hs.length ≤ vs.length)
    (htr : ∀ h ∈ hs, jsTrim h = h) (vtr : ∀ v ∈ vs, jsTrim v = v)
    (hnd : hs.Nodup) : buildRecord hs vs = .ok (hs.zip vs) := by
  rw [buildRecord, buildRecGo_eq_zipBuild vs hs [] 0, List.drop_zero,
    zipBuild_ok hs vs [] hlen htr vtr hnd (by simp)]
  simp

theorem getLast?_cons_of_ne_nil {α : Type} {a : α} {l : List α} (h : l ≠ []) :
    (a :: l).getLast? = l.getLast? := by
  cases l with
  | nil => exact absurd rfl h
  | cons b bs => exact List.getLast?_cons_cons

theorem serializeStudents_cons (s : Record) (rest : List Record) :
    serializeStudents (s :: rest) =
      jsJoin '\n' (jsJoin ',' (s.map Prod.fst) :: (s :: rest).map rowStr) := by
  cases rest with
  | nil => rfl
  | cons b bs => rfl

theorem not_mem_jsJoin {c x : Char} {parts : List Str} (hxc : x ≠ c)
    (h : ∀ p ∈ parts, x ∉ p) : x ∉ jsJoin c parts := by
  intro hmem
  rcases mem_jsJoin c x parts hmem with hc | ⟨p, hp, hxp⟩
  · exact hxc hc
  · exact h p hp hxp

theorem exists_getLast? {α : Type} {l : List α} (h : l ≠ []) :
    ∃ a, l.getLast? = some a := by
  cases hl : l.getLast? with
  | none => exact absurd (List.getLast?_eq_none_iff.mp hl) h
  | some a => exact ⟨a, rfl⟩

theorem parseRows_roundtrip {ks : List Str} (hksne : ks ≠ []) (hnd : ks.Nodup)
    (hkcl : ∀ k ∈ ks, cleanStr k) :
    ∀ (t : List Record),
      (∀ r ∈ t, r.map Prod.fst = ks ∧ ∀ v ∈ r.map Prod.snd, cleanStr v) →
      parseRows ks (t.map rowStr) = .ok t
  | [], _ => by simp [parseRows]
  | r :: rs, h => by
    obtain ⟨hkeys, hvals⟩ := h r (by simp)
    have hvne : r.map Prod.snd ≠ [] := by
      intro hnil
      apply hksne
      rw [← hkeys]
      cases r with
      | nil => rfl
      | cons p ps => simp at hnil
    have hsplit : jsSplit ',' (rowStr r) = r.map Prod.snd :=
      jsSplit_jsJoin ',' (r.map Prod.snd) hvne (fun v hv => (hvals v hv).2.2.1)
    have hlen : ks.length ≤ (r.map Prod.snd).length := by
      rw [← hkeys]; simp
    have hbuild : buildRecord ks (r.map Prod.snd) = .ok (ks.zip (r.map Prod.snd)) :=
      buildRecord_ok hlen (fun k hk => (hkcl k hk).2.1) (fun v hv => (hvals v hv).2.1) hnd
    have hzip : ks.zip (r.map Prod.snd) = r := by
      rw [← hkeys, List.zip_map']
      simp
    have hrow : buildRecord ks (jsSplit ',' (rowStr r)) = .ok r := by
      rw [hsplit, hbuild, hzip]
    have hrest : parseRows ks (rs.map rowStr) = .ok rs :=
      parseRows_roundtrip hksne hnd hkcl rs (fun r' hr' => h r' (List.mem_cons_of_mem _ hr'))
    simp only [List.map_cons, parseRows, hrow, hrest]

theorem roundtrip_aux {ks : List Str} {t : List Record} (h : cleanTable ks t) :
    parseStudents (serializeStudents t) = .ok t := by
  obtain ⟨hksne, hnd, hkcl, hrec⟩ := h
  cases t with
  | nil => decide
  | cons r rs =>
    obtain ⟨hkeys, hvals⟩ := hrec r (by simp)
    have hser : serializeStudents (r :: rs) =
        jsJoin '\n' (jsJoin ',' ks :: (r :: rs).map rowStr) := by
      rw [serializeStudents_cons, hkeys]
    have hline : ∀ l ∈ jsJoin ',' ks :: (r :: rs).map rowStr, '\n' ∉ l := by
      intro l hl
      rcases List.mem_cons.mp hl with rfl | hl'
      · exact not_mem_jsJoin (by decide) (fun k hk => (hkcl k hk).2.2.2)
      · obtain ⟨st, hst, rfl⟩ := List.mem_map.mp hl'
        exact not_mem_jsJoin (by decide) (fun v hv => ((hrec st hst).2 v hv).2.2.2)
    obtain ⟨k0, ks', rfl⟩ : ∃ k0 ks', ks = k0 :: ks' := by
      cases ks with
      | nil => exact absurd rfl hksne
      | cons a b => exact ⟨a, b, rfl⟩
    have hk0 : cleanStr k0 := hkcl k0 (by simp)
    have hhdrhead : (jsJoin ',' (k0 :: ks')).head? = k0.head? :=
      jsJoin_head? ',' k0 ks' hk0.1
    obtain ⟨c0, hc0⟩ : ∃ c, k0.head? = some c := by
      cases k0 with
      | nil => exact absurd rfl hk0.1
      | cons a b => exact ⟨a, rfl⟩
    have hhdrne : jsJoin ',' (k0 :: ks') ≠ [] := by
      intro hn
      rw [hn] at hhdrhead
      rw [hc0] at hhdrhead
      simp at hhdrhead
    have hcsvhead : (serializeStudents (r :: rs)).head? = some c0 := by
      rw [hser, jsJoin_head? '\n' _ _ hhdrne, hhdrhead, hc0]
    obtain ⟨rl, hrl⟩ := exists_getLast? (List.cons_ne_nil r rs)
    have hrlmem : rl ∈ r :: rs := List.mem_of_mem_getLast? (by rw [hrl]; rfl)
    obtain ⟨hrlkeys, hrlvals⟩ := hrec rl hrlmem
    have hrlvne : rl.map Prod.snd ≠ [] := by
      intro hnil
      apply hksne
      rw [← hrlkeys]
      cases rl with
      | nil => rfl
      | cons p ps => simp at hnil
    obtain ⟨vL, hvL⟩ := exists_getLast? hrlvne
    have hvLcl : cleanStr vL := hrlvals vL (List.mem_of_mem_getLast? (by rw [hvL]; rfl))
    have hrowlast : (rowStr rl).getLast? = vL.getLast? :=
      jsJoin_getLast? ',' (rl.map Prod.snd) vL hvL hvLcl.1
    obtain ⟨cL, hcL⟩ := exists_getLast? hvLcl.1
    have hrowne : rowStr rl ≠ [] := by
      intro hn
      rw [hn] at hrowlast
      rw [hcL] at hrowlast
      simp at hrowlast
    have hlineslast :
        (jsJoin ',' (k0 :: ks') :: (r :: rs).map rowStr).getLast? = some (rowStr rl) := by
      rw [getLast?_cons_of_ne_nil (by simp), List.getLast?_map, hrl]
      rfl
    have hcsvlast : (serializeStudents (r :: rs)).getLast? = some cL := by
      rw [hser, jsJoin_getLast? '\n' _ (rowStr rl) hlineslast hrowne, hrowlast, hcL]
    have hcsvne : serializeStudents (r :: rs) ≠ [] := by
      intro hn
      rw [hn] at hcsvhead
      simp at hcsvhead
    have htrim : jsTrim (serializeStudents (r :: rs)) = serializeStudents (r :: rs) := by
      apply jsTrim_eq_of_clean_ends hcsvne
      · intro c hc
        rw [hcsvhead] at hc
        obtain rfl : c0 = c := by simpa using hc
        exact head_not_ws_of_jsTrim_eq hk0.2.1 c0 hc0
      · intro c hc
        rw [hcsvlast] at hc
        obtain rfl : cL = c := by simpa using hc
        exact last_not_ws_of_jsTrim_eq hvLcl.2.1 cL hcL
    have hsplitlines : jsSplit '\n' (serializeStudents (r :: rs)) =
        jsJoin ',' (k0 :: ks') :: (r :: rs).map rowStr := by
      rw [hser]
      exact jsSplit_jsJoin '\n' _ (List.cons_ne_nil _ _) hline
    have hsplitks : jsSplit ',' (jsJoin ',' (k0 :: ks')) = k0 :: ks' :=
      jsSplit_jsJoin ',' _ hksne (fun k hk => (hkcl k hk).2.2.1)
    have hrows : parseRows (k0 :: ks') ((r :: rs).map rowStr) = .ok (r :: rs) :=
      parseRows_roundtrip hksne hnd hkcl (r :: rs) hrec
    have hred : parseStudents (serializeStudents (r :: rs)) =
        parseRows (jsSplit ',' (jsJoin ',' (k0 :: ks'))) ((r :: rs).map rowStr) := by
      rw [parseStudents, if_neg hcsvne, htrim, hsplitlines]
    rw [hred, hsplitks, hrows]

theorem filterByName_total {t : List Record} {q : Str}
    (h : ∀ r ∈ t, (objGet r nameKey).isSome) :
    filterByName t q = .ok (t.filter (fun r => (nameMatches r q).getD false)) := by
  induction t with
  | nil => rfl
  | cons s rest ih =>
    have hs := h s (by simp)
    obtain ⟨n, hn⟩ : ∃ n, objGet s nameKey = some n := by
      cases ho : objGet s nameKey with
      | none => rw [ho] at hs; simp at hs
      | some n => exact ⟨n, rfl⟩
    have hrest := ih (fun r hr => h r (List.mem_cons_of_mem _ hr))
    have hm : nameMatches s q = some (jsIncludes (jsToLower n) (jsToLower q)) := by
      simp [nameMatches, hn]
    simp only [filterByName, hm, hrest, List.filter_cons]
    simp [nameMatches, hn]

theorem filterByName_err {t : List Record} {q : Str}
    (h : ∃ r ∈ t, objGet r nameKey = none) : filterByName t q = .error () := by
  induction t with
  | nil => simp at h
  | cons s rest ih =>
    rcases h with ⟨r, hr, hnone⟩
    rcases List.mem_cons.mp hr with rfl | hr'
    · simp [filterByName, nameMatches, hnone]
    · cases hm : nameMatches s q with
      | none => simp [filterByName, hm]
      | some b => simp [filterByName, hm, ih ⟨r, hr', hnone⟩]

theorem zipBuild_err : ∀ (hs vs : List Str) (acc : Record), vs.length < hs.length →
    zipBuild acc hs vs = .error ()
  | [], _, _, h => by simp at h
  | _ :: _, [], _, _ => rfl
  | h :: hs, v :: vs, acc, hlen => by
    simp only [zipBuild]
    exact zipBuild_err hs vs _ (by simpa using hlen)

theorem buildRecord_err {hs vs : List Str} (h : vs.length < hs.length) :
    buildRecord hs vs = .error () := by
  rw [buildRecord, buildRecGo_eq_zipBuild vs hs [] 0, List.drop_zero]
  exact zipBuild_err hs vs [] h

theorem parseRows_err {hs : List Str} : ∀ (rows : List Str) (row : Str),
    row ∈ rows → (jsSplit ',' row).length < hs.length →
    parseRows hs rows = .error ()
  | [], row, hmem, _ => by simp at hmem
  | r0 :: rest, row, hmem, hlen => by
    rcases List.mem_cons.mp hmem with rfl | hmem'
    · simp [parseRows, buildRecord_err hlen]
    · cases hb : buildRecord hs (jsSplit ',' r0) with
      | error e => simp [parseRows, hb]
      | ok rec => simp [parseRows, hb, parseRows_err rest row hmem' hlen]

/-- C1 (amended): parse of serialize is the identity for tables whose
records all list the same nonempty duplicate-free column sequence and
whose keys and values are nonempty, comma-free, newline-free and carry
no surrounding whitespace. -/
theorem c1_roundtrip (ks : List Str) (t : List Record) (h : cleanTable ks t) :
    parseStudents (serializeStudents t) = .ok t :=
  roundtrip_aux h

/-- C1 counterexample: the claim as stated fails — the single-record
table with value " A" (no embedded comma or newline, all records share
the column set) does not round-trip, because `getStudents` trims each
field on parse. -/
theorem c1_counterexample :
    parseStudents (serializeStudents [[(['n', 'a', 'm', 'e'], [' ', 'A'])]]) ≠
      .ok [[(['n', 'a', 'm', 'e'], [' ', 'A'])]] := by
  decide

/-- C1 witness: the amended round-trip evaluated on a concrete clean table. -/
theorem c1_roundtrip_witness :
    parseStudents (serializeStudents
      [[(['n', 'a', 'm', 'e'], ['A']), (['r', 'o', 'l', 'l'], ['1'])],
       [(['n', 'a', 'm', 'e'], ['B']), (['r', 'o', 'l', 'l'], ['2'])]]) =
      .ok [[(['n', 'a', 'm', 'e'], ['A']), (['r', 'o', 'l', 'l'], ['1'])],
       [(['n', 'a', 'm', 'e'], ['B']), (['r', 'o', 'l', 'l'], ['2'])]] :=
  c1_roundtrip [['n', 'a', 'm', 'e'], ['r', 'o', 'l', 'l']] _ (by decide)

/-- C2: loading resolves the empty table both for a missing file
(ENOENT) and for an existing empty file, and rejects with the I/O error
for any other read failure; a missing file is never an error. -/
theorem c2_load_missing_and_empty :
    getStudents .enoent = .ok [] ∧ getStudents (.ok []) = .ok [] ∧
      ∀ e, getStudents (.ioError e) = .ioError e :=
  ⟨rfl, rfl, fun _ => rfl⟩

/-- C3: the Add handler saves exactly the loaded table with the new
record appended: the written content serializes `t ++ [r]`, which keeps
every pre-existing record at its position and puts `r` last. -/
theorem c3_add_appends (fsr : FsResult) (t : List Record) (r : Record)
    (h : getStudents fsr = .ok t) :
    addFlow fsr r = .success (serializeStudents (t ++ [r])) r ∧
    (t ++ [r]).length = t.length + 1 ∧
    (∀ i, i < t.length → (t ++ [r])[i]? = t[i]?) ∧
    (t ++ [r]).getLast? = some r := by
  refine ⟨by simp [addFlow, h], by simp, ?_, by simp⟩
  intro i hi
  rw [List.getElem?_append, if_pos hi]

/-- C3 witness: adding a record to the one-record store from the spec example. -/
theorem c3_add_appends_witness :
    addFlow (.ok (['n', 'a', 'm', 'e'] ++ '\n' :: ['A'])) [(['n', 'a', 'm', 'e'], ['B'])] =
      .success (serializeStudents ([[(['n', 'a', 'm', 'e'], ['A'])]] ++
        [[(['n', 'a', 'm', 'e'], ['B'])]])) [(['n', 'a', 'm', 'e'], ['B'])] :=
  (c3_add_appends (.ok (['n', 'a', 'm', 'e'] ++ '\n' :: ['A']))
    [[(['n', 'a', 'm', 'e'], ['A'])]] [(['n', 'a', 'm', 'e'], ['B'])] (by decide)).1

/-- C4: search with a non-empty query returns exactly the records whose
name field contains the query case-insensitively, in order (the empty
list when nothing matches), provided every record has a name; search
with the name parameter absent answers 400 regardless of the store. -/
theorem c4_search :
    (∀ (q : Str) (fsr : FsResult) (t : List Record), q ≠ [] →
      getStudents fsr = .ok t → (∀ r ∈ t, (objGet r nameKey).isSome) →
      searchFlow (some q) fsr =
        .ok200 (t.filter (fun r => (nameMatches r q).getD false))) ∧
    ∀ fsr, searchFlow none fsr = .badRequest := by
  constructor
  · intro q fsr t hq hload htotal
    simp only [searchFlow, if_neg hq, hload, filterByName_total htotal]
  · intro fsr
    rfl

/-- C4 witness: query "ali" against the table [{name Alice}, {name bob}]. -/
theorem c4_search_witness :
    searchFlow (some ['a', 'l', 'i'])
      (.ok (['n', 'a', 'm', 'e'] ++ '\n' :: ['A', 'l', 'i', 'c', 'e'] ++ '\n' :: ['b', 'o', 'b'])) =
      .ok200 ([[(['n', 'a', 'm', 'e'], ['A', 'l', 'i', 'c', 'e'])],
        [(['n', 'a', 'm', 'e'], ['b', 'o', 'b'])]].filter
          (fun r => (nameMatches r ['a', 'l', 'i']).getD false)) :=
  c4_search.1 ['a', 'l', 'i']
    (.ok (['n', 'a', 'm', 'e'] ++ '\n' :: ['A', 'l', 'i', 'c', 'e'] ++ '\n' :: ['b', 'o', 'b']))
    [[(['n', 'a', 'm', 'e'], ['A', 'l', 'i', 'c', 'e'])], [(['n', 'a', 'm', 'e'], ['b', 'o', 'b'])]]
    (by decide) (by decide) (by decide)

/-- C5 counterexample: the claim as stated fails — a data row with
fewer fields than the header does not parse to a record with absent
values; `values[index].trim()` throws, and the thrown `TypeError`
crashes the load (it is raised inside the read callback). -/
theorem c5_counterexample :
    getStudents (.ok (['n', 'a', 'm', 'e', ',', 'r', 'o', 'l', 'l', ',', 'm', 'a', 'r', 'k', 's'] ++
      '\n' :: ['A', ',', '1'])) = .crash := by
  decide

/-- C5 (amended): whenever some data row splits into fewer
comma-separated fields than the header line, the parse of the whole
file fails with the thrown `TypeError` (crashing the load), instead of
producing a record with absent values. -/
theorem c5_short_row_crashes (data headerLine : Str) (dataRows : List Str) (row : Str)
    (hne : data ≠ []) (hsplit : jsSplit '\n' (jsTrim data) = headerLine :: dataRows)
    (hmem : row ∈ dataRows)
    (hshort : (jsSplit ',' row).length < (jsSplit ',' headerLine).length) :
    getStudents (.ok data) = .crash := by
  have hp : parseStudents data = .error () := by
    rw [parseStudents, if_neg hne, hsplit]
    show parseRows (jsSplit ',' headerLine) dataRows = .error ()
    exact parseRows_err dataRows row hmem hshort
  simp [getStudents, hp]

/-- C5 witness: the short-row crash evaluated on a concrete file. -/
theorem c5_short_row_crashes_witness :
    getStudents (.ok (['n', 'a', 'm', 'e', ',', 'r', 'o', 'l', 'l', ',', 'm', 'a', 'r', 'k', 's'] ++
      '\n' :: ['B', ',', '2'])) = .crash :=
  c5_short_row_crashes
    (['n', 'a', 'm', 'e', ',', 'r', 'o', 'l', 'l', ',', 'm', 'a', 'r', 'k', 's'] ++
      '\n' :: ['B', ',', '2'])
    ['n', 'a', 'm', 'e', ',', 'r', 'o', 'l', 'l', ',', 'm', 'a', 'r', 'k', 's']
    [['B', ',', '2']] ['B', ',', '2'] (by decide) (by decide) (by decide) (by decide)

/-- C6 counterexample: the claim as stated fails — the export handler
pipes a read stream with no error listener, so requesting export while
the backing file is missing crashes the process instead of answering
with an error envelope. -/
theorem c6_counterexample : handleReq .exportCsv none = .crash := rfl

/-- C6 (amended): every request whose handling avoids the two uncaught
cases — export with a missing backing file, and a parse `TypeError`
during load — gets an HTTP response (200, 201, 204, 400, 404 or 500);
those two cases crash the process. -/
theorem c6_no_crash (req : Req) (fs : FileState)
    (hexp : req = .exportCsv → fs ≠ none)
    (hparse : getStudents (readFs fs) ≠ .crash) :
    ∃ c, handleReq req fs = .respond c ∧
      (c = 200 ∨ c = 201 ∨ c = 204 ∨ c = 400 ∨ c = 404 ∨ c = 500) := by
  cases req with
  | options => exact ⟨204, rfl, by simp⟩
  | other => exact ⟨404, rfl, by simp⟩
  | upload b => exact ⟨200, rfl, by simp⟩
  | exportCsv =>
    cases fs with
    | none => exact absurd rfl (hexp rfl)
    | some s => exact ⟨200, rfl, by simp⟩
  | list =>
    cases hg : getStudents (readFs fs) with
    | ok t => exact ⟨200, by simp [handleReq, hg], by simp⟩
    | ioError e => exact ⟨500, by simp [handleReq, hg], by simp⟩
    | crash => exact absurd hg hparse
  | add body =>
    cases hg : getStudents (readFs fs) with
    | ok t => exact ⟨201, by simp [handleReq, addFlow, hg], by simp⟩
    | ioError e => exact ⟨500, by simp [handleReq, addFlow, hg], by simp⟩
    | crash => exact absurd hg hparse
  | search nm =>
    cases nm with
    | none => exact ⟨400, rfl, by simp⟩
    | some q =>
      by_cases hq : q = []
      · exact ⟨400, by simp [handleReq, searchFlow, hq], by simp⟩
      · cases hg : getStudents (readFs fs) with
        | crash => exact absurd hg hparse
        | ioError e => exact ⟨500, by simp [handleReq, searchFlow, if_neg hq, hg], by simp⟩
        | ok t =>
          cases hf : filterByName t q with
          | ok results =>
            exact ⟨200, by simp [handleReq, searchFlow, if_neg hq, hg, hf], by simp⟩
          | error e =>
            exact ⟨500, by simp [handleReq, searchFlow, if_neg hq, hg, hf], by simp⟩

/-- C6 witness: listing against a missing file responds without crashing. -/
theorem c6_no_crash_witness :
    ∃ c, handleReq .list none = .respond c ∧
      (c = 200 ∨ c = 201 ∨ c = 204 ∨ c = 400 ∨ c = 404 ∨ c = 500) :=
  c6_no_crash .list none (fun h => nomatch h) (by decide)

/-- C7: serializing the empty table writes exactly the fixed header
line name,roll,marks to the backing file, with no data rows. -/
theorem c7_empty_table_header :
    serializeStudents [] =
      ['n', 'a', 'm', 'e', ',', 'r', 'o', 'l', 'l', ',', 'm', 'a', 'r', 'k', 's'] ∧
    ∀ fs, saveWrite [] fs =
      some ['n', 'a', 'm', 'e', ',', 'r', 'o', 'l', 'l', ',', 'm', 'a', 'r', 'k', 's'] :=
  ⟨rfl, fun _ => rfl⟩

/-- C8 counterexample: the claim as stated fails at the missing-file
state — export does not return the file's bytes there; the unhandled
read-stream error crashes the process, so the export-then-import
round trip cannot even start. -/
theorem c8_counterexample :
    exportRaw none = ExportResult.crash ∧ handleReq .exportCsv none = Outcome.crash :=
  ⟨rfl, rfl⟩

/-- C8 (amended): whenever the backing file exists, export returns its
bytes verbatim, importing those exact bytes (over any intervening file
state) restores the file byte-for-byte, and a subsequent list observes
the same table as before. -/
theorem c8_export_import_roundtrip (s : Str) (fs2 : FileState) :
    exportRaw (some s) = .bytes s ∧ importRaw s fs2 = some s ∧
      getStudents (readFs (importRaw s fs2)) = getStudents (readFs (some s)) :=
  ⟨rfl, rfl, rfl⟩

/-- C9: two Add requests that both load the table `t` from the prior
file state `s0`, each append their own record, and write in order
r1-then-r2: the second whole-file overwrite wins, so the final file is
exactly the serialization of `t ++ [r2]`, a later load sees `t ++ [r2]`,
and r1's addition is silently lost. -/
theorem c9_lost_update (s0 : Str) (t : List Record) (r1 r2 : Record) (ks : List Str)
    (hload : getStudents (.ok s0) = .ok t)
    (hclean : cleanTable ks (t ++ [r2]))
    (hnew : r1 ∉ t) (hne : r1 ≠ r2) :
    addFlow (.ok s0) r1 = .success (serializeStudents (t ++ [r1])) r1 ∧
    addFlow (.ok s0) r2 = .success (serializeStudents (t ++ [r2])) r2 ∧
    writeFile (writeFile (some s0) (serializeStudents (t ++ [r1])))
        (serializeStudents (t ++ [r2])) = some (serializeStudents (t ++ [r2])) ∧
    getStudents (readFs (writeFile (writeFile (some s0) (serializeStudents (t ++ [r1])))
        (serializeStudents (t ++ [r2])))) = .ok (t ++ [r2]) ∧
    r1 ∉ t ++ [r2] := by
  refine ⟨by simp [addFlow, hload], by simp [addFlow, hload], rfl, ?_, ?_⟩
  · show getStudents (.ok (serializeStudents (t ++ [r2]))) = .ok (t ++ [r2])
    simp [getStudents, roundtrip_aux hclean]
  · intro hmem
    rcases List.mem_append.mp hmem with h1 | h2
    · exact hnew h1
    · exact hne (by simpa using h2)

/-- C9 witness: the lost-update race evaluated on a concrete store. -/
theorem c9_lost_update_witness :
    getStudents (readFs (writeFile
      (writeFile (some (['n', 'a', 'm', 'e'] ++ '\n' :: ['A']))
        (serializeStudents ([[(['n', 'a', 'm', 'e'], ['A'])]] ++ [[(['n', 'a', 'm', 'e'], ['B'])]])))
      (serializeStudents ([[(['n', 'a', 'm', 'e'], ['A'])]] ++ [[(['n', 'a', 'm', 'e'], ['C'])]])))) =
      .ok ([[(['n', 'a', 'm', 'e'], ['A'])]] ++ [[(['n', 'a', 'm', 'e'], ['C'])]]) :=
  (c9_lost_update (['n', 'a', 'm', 'e'] ++ '\n' :: ['A']) [[(['n', 'a', 'm', 'e'], ['A'])]]
    [(['n', 'a', 'm', 'e'], ['B'])] [(['n', 'a', 'm', 'e'], ['C'])] [['n', 'a', 'm', 'e']]
    (by decide) (by decide) (by decide) (by decide)).2.2.2.1

/-- C10: when the loaded table contains a record without a name
property, a search with a non-empty query throws inside the filter; the
handler catches it and answers 500 instead of skipping that record. -/
theorem c10_missing_name_500 (q : Str) (fsr : FsResult) (t : List Record) (r : Record)
    (hq : q ≠ []) (hload : getStudents fsr = .ok t) (hmem : r ∈ t)
    (hnone : objGet r nameKey = none) :
    searchFlow (some q) fsr = .error500 := by
  simp [searchFlow, if_neg hq, hload, filterByName_err ⟨r, hmem, hnone⟩]

/-- C10 witness: searching a store whose header lacks a name column. -/
theorem c10_missing_name_500_witness :
    searchFlow (some ['z']) (.ok (['r', 'o', 'l', 'l'] ++ '\n' :: ['1'])) = .error500 :=
  c10_missing_name_500 ['z'] (.ok (['r', 'o', 'l', 'l'] ++ '\n' :: ['1']))
    [[(['r', 'o', 'l', 'l'], ['1'])]] [(['r', 'o', 'l', 'l'], ['1'])]
    (by decide) (by decide) (by decide) (by decide)
